import Mathlib

/-!
Verification of the PersonaMem memory retrieval, ranking, and prompt-assembly
core: a shallow embedding of `app/memory_service.py`, `app/retrieval.py` and
`app/prompt_builder.py`, with theorems settling the frozen claims.

Modelling conventions:
* Python text is modelled as `List Char` (named `Str` below); `"…".data`
  converts a Lean literal to that representation.
* Python floats are modelled as exact rationals `ℚ`; `round(x, 4)` is
  modelled as round-half-to-even at 4 decimal places (`pyRound4`).
* Python's floor division `//` on possibly-negative ints is `Int.fdiv`.
* The SQL database is a `List Memory`; the pair of per-user persisted FAISS
  artifacts (vector blob + pickled id list) is `Option (List E × List String)`
  inside `AppState`, where `E` is the abstract type of embedding vectors and
  the embedding model is an arbitrary function parameter `emb : Str → E`.
* The FAISS search call is an oracle parameter `search : ℕ → List (ℚ × ℤ)`
  returning (similarity, ordinal) pairs for the requested neighbour count;
  theorems quantify over all possible search outputs.
-/

namespace PersonaMem

/-- Python strings as lists of characters. -/
abbrev Str := List Char

/-- Python's `sep.join(parts)`. -/
def joinSep (sep : Str) : List Str → Str
  | [] => []
  | [x] => x
  | x :: y :: xs => x ++ sep ++ joinSep sep (y :: xs)

/-- Does `needle` occur at the start of `hay`? (Python `startswith`.) -/
def startsWith : Str → Str → Bool
  | [], _ => true
  | _ :: _, [] => false
  | a :: as, b :: bs => a == b && startsWith as bs

/-- Python's substring test `needle in hay`. -/
def containsSub (needle : Str) : Str → Bool
  | [] => needle.isEmpty
  | c :: rest => startsWith needle (c :: rest) || containsSub needle rest

/-- Round-half-to-even of a rational to an integer (Python's `round(x)`
tie-breaking rule, on the exact-rational model of floats). -/
def roundHalfEven (x : ℚ) : ℤ :=
  let n := ⌊x⌋
  let f := x - (n : ℚ)
  if f < 1/2 then n
  else if 1/2 < f then n + 1
  else if n % 2 = 0 then n else n + 1

/-- Python's `round(x, 4)` on the exact-rational model of floats. -/
def pyRound4 (x : ℚ) : ℚ := (roundHalfEven (x * 10000) : ℚ) / 10000

/-! ## memory_service.py — relevance scorer -/

/-- The `EMOTIONAL_KEYWORDS` from `memory_service.py`. -/
def EMOTIONAL_KEYWORDS : List Str :=
  ["love", "hate", "fear", "happy", "sad", "excited", "angry", "worried",
   "important", "critical", "urgent", "emergency", "always", "never",
   "prefer", "goal", "dream", "wish", "need", "must", "remember"].map String.data

/-- The `FACTUAL_KEYWORDS` from `memory_service.py`. -/
def FACTUAL_KEYWORDS : List Str :=
  ["my name", "i am", "i work", "i live", "i study", "i have",
   "my job", "my career", "my hobby", "i like", "i dislike",
   "i want", "i need", "my goal", "my project"].map String.data

/-- The `compute_importance_score` from `memory_service.py`. -/
def compute_importance_score (content : Str) (reinforcement_count : ℕ) : ℚ :=
  let lower := content.map Char.toLower
  let emotional_hits := EMOTIONAL_KEYWORDS.countP (fun kw => containsSub kw lower)
  let factual_hits := FACTUAL_KEYWORDS.countP (fun kw => containsSub kw lower)
  let score : ℚ := 0.3
    + min ((emotional_hits : ℚ) * 0.05) 0.25
    + min ((factual_hits : ℚ) * 0.08) 0.24
    + (if content.length > 100 then 0.05 else 0)
    + (if content.length > 300 then 0.05 else 0)
    + min (((reinforcement_count : ℚ) - 1) * 0.02) 0.1
  min (pyRound4 score) 1

/-- The importance formula exactly as the spec words it: baseline plus capped
bonuses, the result clamped to `[0, 1]` and rounded to 4 decimal places. -/
def importanceSpec (content : Str) (n : ℕ) : ℚ :=
  let lower := content.map Char.toLower
  let emotional_hits := EMOTIONAL_KEYWORDS.countP (fun kw => containsSub kw lower)
  let factual_hits := FACTUAL_KEYWORDS.countP (fun kw => containsSub kw lower)
  let raw : ℚ := 0.3
    + min ((emotional_hits : ℚ) * 0.05) 0.25
    + min ((factual_hits : ℚ) * 0.08) 0.24
    + (if content.length > 100 then 0.05 else 0)
    + (if content.length > 300 then 0.05 else 0)
    + min (((n : ℚ) - 1) * 0.02) 0.1
  max 0 (min (pyRound4 raw) 1)

/-- The `compute_recency_score` from `memory_service.py`; `now` and `timestamp`
are epoch seconds, so `(now - timestamp) / 3600` is the age in hours. -/
def compute_recency_score (now timestamp : ℚ) : ℚ :=
  let age_hours := (now - timestamp) / 3600
  if age_hours < 1 then 1.0
  else if age_hours < 24 then 0.85
  else if age_hours < 168 then 0.65
  else if age_hours < 720 then 0.45
  else if age_hours < 8760 then 0.25
  else 0.1

/-- The recency step function of age-in-hours exactly as the spec words it. -/
def recencyStep (age_hours : ℚ) : ℚ :=
  if age_hours < 1 then 1.0
  else if age_hours < 24 then 0.85
  else if age_hours < 168 then 0.65
  else if age_hours < 720 then 0.45
  else if age_hours < 8760 then 0.25
  else 0.1

/-! ## models.py / config.py — data model and settings -/

/-- The `Memory` ORM row (`models.py`), restricted to the fields the
retrieval core reads or writes.  Timestamps are epoch seconds as `ℚ`. -/
structure Memory where
  id : String
  user_id : String
  memory_type : String
  content : Str
  importance_score : ℚ
  timestamp : ℚ
  last_accessed : ℚ
  reinforcement_count : ℕ
  faiss_index_id : Option ℕ
  deriving Repr, DecidableEq

/-- The `settings.WEIGHT_SEMANTIC` (config.py default). -/
def WEIGHT_SEMANTIC : ℚ := 0.4
/-- The `settings.WEIGHT_RECENCY` (config.py default). -/
def WEIGHT_RECENCY : ℚ := 0.2
/-- The `settings.WEIGHT_IMPORTANCE` (config.py default). -/
def WEIGHT_IMPORTANCE : ℚ := 0.2
/-- The `settings.WEIGHT_FREQUENCY` (config.py default). -/
def WEIGHT_FREQUENCY : ℚ := 0.1
/-- The `settings.WEIGHT_PERSONAL` (config.py default). -/
def WEIGHT_PERSONAL : ℚ := 0.1
/-- The `settings.TOP_K_MEMORIES` (config.py default). -/
def TOP_K_MEMORIES : ℕ := 5

/-- Combined persistent state: the SQL database plus, per user, the pair of
FAISS artifacts (vector list and parallel memory-id list); `none` models the
index files being absent for that user. -/
structure AppState (E : Type) where
  db : List Memory
  files : String → Option (List E × List String)

/-! ## retrieval.py — vector index store and ranking engine -/

/-- The `load_faiss_index`: returns `(index_or_absent, memory_ids)`, with
`(none, [])` when the user's files are absent. -/
def load_faiss_index {E : Type} (s : AppState E) (user_id : String) :
    Option (List E) × List String :=
  match s.files user_id with
  | none => (none, [])
  | some (index, memory_ids) => (some index, memory_ids)

/-- The `save_faiss_index`: persists the index and the id list together. -/
def save_faiss_index {E : Type} (s : AppState E) (user_id : String)
    (index : List E) (memory_ids : List String) : AppState E :=
  { s with files := fun u => if u = user_id then some (index, memory_ids) else s.files u }

/-- The `add_memory_to_index`: embeds the content, appends vector and id to the
user's pair (creating both if absent), persists, and returns the assigned
ordinal `len(memory_ids)` taken before the append. -/
def add_memory_to_index {E : Type} (emb : Str → E) (user_id memory_id : String)
    (content : Str) (s : AppState E) : ℕ × AppState E :=
  let loaded := load_faiss_index s user_id
  let embedding := emb content
  let index := (loaded.1.getD []) ++ [embedding]
  let faiss_id := loaded.2.length
  let memory_ids := loaded.2 ++ [memory_id]
  (faiss_id, save_faiss_index s user_id index memory_ids)

/-- Descending-timestamp order used by `get_memories_by_user`'s
`ORDER BY timestamp DESC` (modelled as a stable sort). -/
def byTimestampDesc (a b : Memory) : Prop := b.timestamp ≤ a.timestamp

instance : DecidableRel byTimestampDesc :=
  fun a b => inferInstanceAs (Decidable (b.timestamp ≤ a.timestamp))

instance : IsTotal Memory byTimestampDesc :=
  ⟨fun a b => (le_total b.timestamp a.timestamp).imp id id⟩

instance : IsTrans Memory byTimestampDesc :=
  ⟨fun _ _ _ h1 h2 => le_trans h2 h1⟩

/-- The `get_memories_by_user` (memory_service.py): filter by user (and type when
given), order by timestamp descending, limit. -/
def get_memories_by_user (db : List Memory) (user_id : String)
    (memory_type : Option String) (limit : ℕ) : List Memory :=
  ((db.filter (fun m => m.user_id == user_id &&
      match memory_type with
      | none => true
      | some t => m.memory_type == t)).insertionSort byTimestampDesc).take limit

/-- Index of the first element of the list satisfying `p`, if any. -/
def firstIdx (p : Memory → Bool) : List Memory → Option ℕ
  | [] => none
  | x :: xs => if p x then some 0 else (firstIdx p xs).map (· + 1)

/-- Re-stamp one database row to the ordinal its id occupies in the rebuilt
selection.  The Python loop mutates the selected ORM objects in place; with
unique row ids that is exactly id-based matching against the selection. -/
def stampFrom (sel : List Memory) (m : Memory) : Memory :=
  match firstIdx (fun x => x.id == m.id) sel with
  | some i => { m with faiss_index_id := some i }
  | none => m

/-- The `rebuild_user_index`: select the user's semantic memories; if none,
return without writing; otherwise build a fresh index over their embedded
contents, re-stamp each selected memory's `faiss_index_id` to its new ordinal,
and replace both persisted artifacts. -/
def rebuild_user_index {E : Type} (emb : Str → E) (user_id : String)
    (s : AppState E) : AppState E :=
  let memories := get_memories_by_user s.db user_id (some "semantic") 100
  if memories.isEmpty then s
  else
    let index := memories.map (fun m => emb m.content)
    let memory_ids := memories.map (·.id)
    let db' := s.db.map (stampFrom memories)
    save_faiss_index { s with db := db' } user_id index memory_ids

/-- The ranked-candidate record produced per query (`retrieval.py`); the
`timestamp` field holds the raw timestamp whose ISO rendering the code emits. -/
structure RankedCandidate where
  id : String
  content : Str
  memory_type : String
  importance_score : ℚ
  semantic_similarity : ℚ
  recency_score : ℚ
  composite_score : ℚ
  timestamp : ℚ
  reinforcement_count : ℕ
  deriving Repr, DecidableEq

/-- The candidate loop of `retrieve_relevant_memories`: each (similarity,
ordinal) pair whose ordinal is out of `[0, len(memory_ids))` is skipped, the
ordinal is resolved through the id list and the database, vanished memories
are skipped, and the five-factor composite score is computed. -/
def buildCandidates (db : List Memory) (user_id : String)
    (memory_ids : List String) (now : ℚ) : List (ℚ × ℤ) → List RankedCandidate
  | [] => []
  | (dist, idx) :: rest =>
    if idx < 0 ∨ (memory_ids.length : ℤ) ≤ idx then
      buildCandidates db user_id memory_ids now rest
    else
      let mem_id := (memory_ids.get? idx.toNat).getD ""
      match db.find? (fun m => m.id == mem_id && m.user_id == user_id) with
      | none => buildCandidates db user_id memory_ids now rest
      | some mem =>
        let semantic_sim := dist
        let recency := compute_recency_score now mem.timestamp
        let importance := mem.importance_score
        let frequency := min ((mem.reinforcement_count : ℚ) / 20) 1.0
        let personal : ℚ :=
          if mem.memory_type = "profile" ∨ mem.memory_type = "episodic" then 0.8 else 0.5
        let composite :=
          WEIGHT_SEMANTIC * semantic_sim
          + WEIGHT_RECENCY * recency
          + WEIGHT_IMPORTANCE * importance
          + WEIGHT_FREQUENCY * frequency
          + WEIGHT_PERSONAL * personal
        { id := mem.id
          content := mem.content
          memory_type := mem.memory_type
          importance_score := importance
          semantic_similarity := pyRound4 semantic_sim
          recency_score := pyRound4 recency
          composite_score := pyRound4 composite
          timestamp := mem.timestamp
          reinforcement_count := mem.reinforcement_count }
          :: buildCandidates db user_id memory_ids now rest

/-- Same candidate loop, but with the list indexing `memory_ids[idx]`
modelled as a fallible operation: `none` is the `IndexError` Python would
raise if the loop ever indexed out of bounds. -/
def buildCandidatesChecked (db : List Memory) (user_id : String)
    (memory_ids : List String) (now : ℚ) :
    List (ℚ × ℤ) → Option (List RankedCandidate)
  | [] => some []
  | (dist, idx) :: rest =>
    if idx < 0 ∨ (memory_ids.length : ℤ) ≤ idx then
      buildCandidatesChecked db user_id memory_ids now rest
    else
      match memory_ids.get? idx.toNat with
      | none => none
      | some mem_id =>
        match db.find? (fun m => m.id == mem_id && m.user_id == user_id) with
        | none => buildCandidatesChecked db user_id memory_ids now rest
        | some mem =>
          let semantic_sim := dist
          let recency := compute_recency_score now mem.timestamp
          let importance := mem.importance_score
          let frequency := min ((mem.reinforcement_count : ℚ) / 20) 1.0
          let personal : ℚ :=
            if mem.memory_type = "profile" ∨ mem.memory_type = "episodic" then 0.8 else 0.5
          let composite :=
            WEIGHT_SEMANTIC * semantic_sim
            + WEIGHT_RECENCY * recency
            + WEIGHT_IMPORTANCE * importance
            + WEIGHT_FREQUENCY * frequency
            + WEIGHT_PERSONAL * personal
          (buildCandidatesChecked db user_id memory_ids now rest).map
            (fun cs =>
              { id := mem.id
                content := mem.content
                memory_type := mem.memory_type
                importance_score := importance
                semantic_similarity := pyRound4 semantic_sim
                recency_score := pyRound4 recency
                composite_score := pyRound4 composite
                timestamp := mem.timestamp
                reinforcement_count := mem.reinforcement_count } :: cs)

/-- Descending order on the (rounded) `composite_score` field used by
`candidates.sort(key=..., reverse=True)`. -/
def byScoreDesc (a b : RankedCandidate) : Prop := b.composite_score ≤ a.composite_score

instance : DecidableRel byScoreDesc :=
  fun a b => inferInstanceAs (Decidable (b.composite_score ≤ a.composite_score))

instance : IsTotal RankedCandidate byScoreDesc :=
  ⟨fun a b => (le_total b.composite_score a.composite_score).imp id id⟩

instance : IsTrans RankedCandidate byScoreDesc :=
  ⟨fun _ _ _ h1 h2 => le_trans h2 h1⟩

/-- The unsorted candidate list `retrieve_relevant_memories` builds for a
query: empty when the user's index is absent or has zero vectors, otherwise
the candidate loop applied to the `min(top_k*3, ntotal)`-neighbour search
result.  `search k` is the oracle for `index.search(query_vec, k)`. -/
def candidatesOf {E : Type} (search : ℕ → List (ℚ × ℤ)) (now : ℚ)
    (user_id : String) (top_k : Option ℕ) (s : AppState E) : List RankedCandidate :=
  let k0 := top_k.getD TOP_K_MEMORIES
  match load_faiss_index s user_id with
  | (none, _) => []
  | (some index, memory_ids) =>
    if index.length = 0 then []
    else buildCandidates s.db user_id memory_ids now (search (min (k0 * 3) index.length))

/-- The `retrieve_relevant_memories`: build candidates, sort them stably by
descending (rounded) composite score, truncate to `top_k` (defaulted from
settings when `none`), and leave the state untouched. -/
def retrieve_relevant_memories {E : Type} (search : ℕ → List (ℚ × ℤ)) (now : ℚ)
    (user_id : String) (query : Str) (top_k : Option ℕ) (s : AppState E) :
    List RankedCandidate × AppState E :=
  ((List.insertionSort byScoreDesc (candidatesOf search now user_id top_k s)).take
      (top_k.getD TOP_K_MEMORIES),
    s)

/-! ## prompt_builder.py — token-budgeted prompt assembler -/

/-- The `estimate_tokens`: the 4-characters-per-token approximation
`max(1, len(text) // 4)`. -/
def estimate_tokens (text : Str) : ℤ := max 1 ((text.length / 4 : ℕ) : ℤ)

/-- The continuation marker appended on truncation. -/
def MARKER : Str := "...".data

/-- The `truncate_to_tokens`: keep `max_tokens * 4` characters and append the
marker when the text is longer; Python slice semantics (a negative bound
drops characters from the end, clamped at the empty string). -/
def truncate_to_tokens (text : Str) (max_tokens : ℤ) : Str :=
  let max_chars := max_tokens * 4
  if (text.length : ℤ) ≤ max_chars then text
  else
    text.take (if 0 ≤ max_chars then max_chars.toNat
               else ((text.length : ℤ) + max_chars).toNat) ++ MARKER

/-- The `SYSTEM_INSTRUCTION` from `prompt_builder.py` (two source lines end in a
trailing space before the newline). -/
def SYSTEM_INSTRUCTION : Str :=
  ("You are PersonaMem, an intelligent AI assistant with persistent memory about the user. \nYou remember past conversations, personal details, and preferences. \nUse the provided context to give personalized, helpful responses.\nBe concise, clear, and adapt your tone to the user's style.\nNever mention that you are reading from stored memory — just respond naturally.").data

/-- The `UserProfile` fields `build_profile_summary` reads.  `none` models a
SQL `NULL`; an empty string or list is still `some` and is dropped by the
Python truthiness checks below, just as the source's `if profile.field:`. -/
structure UserProfile where
  display_name : Option Str
  expertise_level : Option Str
  communication_style : Option Str
  interests : Option (List Str)
  goals : Option (List Str)

/-- Python truthiness of an optional string field. -/
def truthyS (o : Option Str) : Bool :=
  match o with
  | none => false
  | some s => !s.isEmpty

/-- Python truthiness of an optional list field. -/
def truthyL (o : Option (List Str)) : Bool :=
  match o with
  | none => false
  | some l => !l.isEmpty

/-- The `build_profile_summary`. -/
def build_profile_summary (profile : Option UserProfile) : Str :=
  match profile with
  | none => []
  | some p =>
    let parts : List Str :=
      (if truthyS p.display_name then ["Name: ".data ++ p.display_name.getD []] else [])
      ++ (if truthyS p.expertise_level then
            ["Expertise: ".data ++ p.expertise_level.getD []] else [])
      ++ (if truthyS p.communication_style then
            ["Style: ".data ++ p.communication_style.getD []] else [])
      ++ (if truthyL p.interests then
            ["Interests: ".data ++ joinSep ", ".data ((p.interests.getD []).take 5)] else [])
      ++ (if truthyL p.goals then
            ["Goals: ".data ++ joinSep "; ".data ((p.goals.getD []).take 3)] else [])
    if parts.isEmpty then []
    else "USER PROFILE:\n".data ++ joinSep "\n".data parts

/-- The `build_memory_context`: the ranked candidates as `[TYPE] content` lines
under a header. -/
def build_memory_context (retrieved_memories : List RankedCandidate) : Str :=
  match retrieved_memories with
  | [] => []
  | _ =>
    joinSep "\n".data
      ("RELEVANT MEMORIES:".data ::
        retrieved_memories.map (fun m =>
          "[".data ++ m.memory_type.data.map Char.toUpper ++ "] ".data ++ m.content))

/-- A session turn: role and content. -/
structure SessionMessage where
  role : String
  content : Str

/-- The `build_session_summary`: recent turns, each content pre-clipped to 300
characters. -/
def build_session_summary (session_messages : List SessionMessage) : Str :=
  match session_messages with
  | [] => []
  | _ =>
    joinSep "\n".data
      ("RECENT CONVERSATION:".data ::
        session_messages.map (fun msg =>
          (if msg.role == "user" then "User: ".data else "Assistant: ".data)
            ++ msg.content.take 300))

/-- The `build_prompt`: reserve the system instruction, the query section and a
50-token buffer, then budget profile (quarter of the remainder), memory
(half of what is then left) and session (the rest), and join the non-empty
sections with blank lines in fixed order. -/
def build_prompt (user_query : Str) (profile : Option UserProfile)
    (retrieved_memories : List RankedCandidate)
    (session_messages : List SessionMessage) (max_tokens : ℤ) : Str :=
  let system_part := SYSTEM_INSTRUCTION
  let query_part := "\nUser: ".data ++ user_query ++ "\nAssistant:".data
  let reserved := estimate_tokens system_part + estimate_tokens query_part + 50
  let remaining := max_tokens - reserved
  let profile_text0 := build_profile_summary profile
  let profile_text :=
    if Int.fdiv remaining 4 < estimate_tokens profile_text0 then
      truncate_to_tokens profile_text0 (Int.fdiv remaining 4)
    else profile_text0
  let remaining := remaining - estimate_tokens profile_text
  let memory_text0 := build_memory_context retrieved_memories
  let memory_budget := Int.fdiv remaining 2
  let memory_text :=
    if memory_budget < estimate_tokens memory_text0 then
      truncate_to_tokens memory_text0 memory_budget
    else memory_text0
  let remaining := remaining - estimate_tokens memory_text
  let session_text0 := build_session_summary session_messages
  let session_text :=
    if remaining < estimate_tokens session_text0 then
      truncate_to_tokens session_text0 remaining
    else session_text0
  let sections := [system_part]
    ++ (if profile_text.isEmpty then [] else [profile_text])
    ++ (if memory_text.isEmpty then [] else [memory_text])
    ++ (if session_text.isEmpty then [] else [session_text])
    ++ [query_part]
  joinSep "\n\n".data sections

/-- The spec's own description of the assembler (section 4.5 of the spec),
written out independently: same reservations, priority-ordered caps, and
fixed-order assembly omitting empty sections. -/
def assemblePromptSpec (user_query : Str) (profile : Option UserProfile)
    (retrieved_memories : List RankedCandidate)
    (session_messages : List SessionMessage) (max_tokens : ℤ) : Str :=
  let fixed_head := SYSTEM_INSTRUCTION
  let fixed_tail := "\nUser: ".data ++ user_query ++ "\nAssistant:".data
  let budget := max_tokens -
    (estimate_tokens fixed_head + estimate_tokens fixed_tail + 50)
  let profile_raw := build_profile_summary profile
  let profile_cap := Int.fdiv budget 4
  let profile_sec :=
    if profile_cap < estimate_tokens profile_raw then
      truncate_to_tokens profile_raw profile_cap
    else profile_raw
  let budget := budget - estimate_tokens profile_sec
  let memory_raw := build_memory_context retrieved_memories
  let memory_cap := Int.fdiv budget 2
  let memory_sec :=
    if memory_cap < estimate_tokens memory_raw then
      truncate_to_tokens memory_raw memory_cap
    else memory_raw
  let budget := budget - estimate_tokens memory_sec
  let session_raw := build_session_summary session_messages
  let session_sec :=
    if budget < estimate_tokens session_raw then
      truncate_to_tokens session_raw budget
    else session_raw
  joinSep "\n\n".data
    ([fixed_head]
      ++ (if profile_sec.isEmpty then [] else [profile_sec])
      ++ (if memory_sec.isEmpty then [] else [memory_sec])
      ++ (if session_sec.isEmpty then [] else [session_sec])
      ++ [fixed_tail])

/-- The token measure exactly as the claim words it: `ceil(len(text)/4)`. -/
def ceilTokens (text : Str) : ℤ := ((text.length + 3) / 4 : ℕ)

/-- The raw (pre-rounding) importance score as a function of the emotional
hit count, factual hit count, content length and reinforcement count. -/
def rawScore (e f L n : ℕ) : ℚ :=
  0.3 + min ((e : ℚ) * 0.05) 0.25 + min ((f : ℚ) * 0.08) 0.24
    + (if L > 100 then 0.05 else 0) + (if L > 300 then 0.05 else 0)
    + min (((n : ℚ) - 1) * 0.02) 0.1

/-- The composite score exactly as the claim words it, recomputed from a
returned candidate's own fields: `w_sem*similarity + w_rec*recency +
w_imp*importance + w_freq*frequency + w_pers*personal` with the default
weights, `frequency = min(reinforcement_count/20, 1)` and `personal = 0.8`
for profile or episodic memories, `0.5` otherwise. -/
def claimComposite (c : RankedCandidate) : ℚ :=
  0.4 * c.semantic_similarity + 0.2 * c.recency_score + 0.2 * c.importance_score
    + 0.1 * min ((c.reinforcement_count : ℚ) / 20) 1
    + 0.1 * (if c.memory_type = "profile" ∨ c.memory_type = "episodic" then 0.8 else 0.5)

/-- Concrete memory A for the ranking counterexample: moderately important,
high similarity. -/
def cexMemA : Memory :=
  { id := "a", user_id := "u1", memory_type := "semantic", content := "alpha".data
    importance_score := 0.5, timestamp := 0, last_accessed := 0
    reinforcement_count := 1, faiss_index_id := some 0 }

/-- Concrete memory B for the ranking counterexample: slightly more
important, slightly less similar — its true composite score is higher than
A's but rounds to the same 4-decimal value. -/
def cexMemB : Memory :=
  { id := "b", user_id := "u1", memory_type := "semantic", content := "beta".data
    importance_score := 0.6, timestamp := 0, last_accessed := 0
    reinforcement_count := 1, faiss_index_id := some 1 }

/-- Concrete application state for the ranking counterexample: two memories
for user `u1`, whose index holds two vectors parallel to ids `[a, b]`. -/
def cexState : AppState Unit :=
  { db := [cexMemA, cexMemB]
    files := fun u => if u = "u1" then some ([(), ()], ["a", "b"]) else none }

/-- Concrete search oracle for the ranking counterexample: similarity 0.8
for ordinal 0 and 0.7501 for ordinal 1 (descending, as FAISS returns). -/
def cexSearch : ℕ → List (ℚ × ℤ) := fun _ => [(0.8, 0), (0.7501, 1)]

/-- The ranked candidate the code produces for `cexMemA` at similarity 0.8
two hours after its creation. -/
def cexCandA : RankedCandidate :=
  { id := "a", content := "alpha".data, memory_type := "semantic"
    importance_score := 0.5, semantic_similarity := 0.8, recency_score := 0.85
    composite_score := 0.645, timestamp := 0, reinforcement_count := 1 }

/-- The ranked candidate the code produces for `cexMemB` at similarity
0.7501: its true weighted sum is 0.64504, but its stored `composite_score`
rounds to the same 0.645 as A's. -/
def cexCandB : RankedCandidate :=
  { id := "b", content := "beta".data, memory_type := "semantic"
    importance_score := 0.6, semantic_similarity := 0.7501, recency_score := 0.85
    composite_score := 0.645, timestamp := 0, reinforcement_count := 1 }

/-- Concrete empty application state over `ℕ`-valued embeddings. -/
def cexEmptyState : AppState ℕ :=
  { db := [], files := fun _ => none }

/-! ## Helper lemmas -/

theorem roundHalfEven_intCast (k : ℤ) : roundHalfEven (k : ℚ) = k := by
  unfold roundHalfEven
  norm_num

theorem pyRound4_cent {q : ℚ} (z : ℤ) (h : q = (z : ℚ) / 100) : pyRound4 q = q := by
  subst h
  unfold pyRound4
  have h1 : ((z : ℚ) / 100) * 10000 = ((z * 100 : ℤ) : ℚ) := by push_cast; ring
  rw [h1, roundHalfEven_intCast]
  push_cast
  ring

theorem cent_add {a b : ℚ} (ha : ∃ x : ℤ, a = (x : ℚ) / 100)
    (hb : ∃ y : ℤ, b = (y : ℚ) / 100) : ∃ z : ℤ, a + b = (z : ℚ) / 100 := by
  obtain ⟨x, rfl⟩ := ha
  obtain ⟨y, rfl⟩ := hb
  exact ⟨x + y, by push_cast; ring⟩

theorem cent_min {a b : ℚ} (ha : ∃ x : ℤ, a = (x : ℚ) / 100)
    (hb : ∃ y : ℤ, b = (y : ℚ) / 100) : ∃ z : ℤ, min a b = (z : ℚ) / 100 := by
  obtain ⟨x, rfl⟩ := ha
  obtain ⟨y, rfl⟩ := hb
  refine ⟨min x y, ?_⟩
  rcases le_total x y with h | h
  · rw [min_eq_left h, min_eq_left (by
      apply div_le_div_of_nonneg_right ?_ (by norm_num)
      exact_mod_cast h)]
  · rw [min_eq_right h, min_eq_right (by
      apply div_le_div_of_nonneg_right ?_ (by norm_num)
      exact_mod_cast h)]

theorem rawScore_cent (e f L n : ℕ) : ∃ z : ℤ, rawScore e f L n = (z : ℚ) / 100 := by
  unfold rawScore
  refine cent_add (cent_add (cent_add (cent_add (cent_add ⟨30, by norm_num⟩ ?_) ?_) ?_) ?_) ?_
  · exact cent_min ⟨5 * e, by push_cast; ring_nf⟩ ⟨25, by norm_num⟩
  · exact cent_min ⟨8 * f, by push_cast; ring_nf⟩ ⟨24, by norm_num⟩
  · by_cases h : L > 100
    · exact ⟨5, by rw [if_pos h]; norm_num⟩
    · exact ⟨0, by rw [if_neg h]; norm_num⟩
  · by_cases h : L > 300
    · exact ⟨5, by rw [if_pos h]; norm_num⟩
    · exact ⟨0, by rw [if_neg h]; norm_num⟩
  · exact cent_min ⟨2 * ((n : ℤ) - 1), by push_cast; ring_nf⟩ ⟨10, by norm_num⟩

theorem rawScore_lower (e f L n : ℕ) (hn : 1 ≤ n) : 0.3 ≤ rawScore e f L n := by
  unfold rawScore
  have h1 : (0 : ℚ) ≤ min ((e : ℚ) * 0.05) 0.25 := le_min (by positivity) (by norm_num)
  have h2 : (0 : ℚ) ≤ min ((f : ℚ) * 0.08) 0.24 := le_min (by positivity) (by norm_num)
  have h3 : (0 : ℚ) ≤ (if L > 100 then (0.05 : ℚ) else 0) := by split <;> norm_num
  have h4 : (0 : ℚ) ≤ (if L > 300 then (0.05 : ℚ) else 0) := by split <;> norm_num
  have h5 : (0 : ℚ) ≤ min (((n : ℚ) - 1) * 0.02) 0.1 := by
    refine le_min (mul_nonneg ?_ (by norm_num)) (by norm_num)
    have : (1 : ℚ) ≤ (n : ℚ) := by exact_mod_cast hn
    linarith
  linarith

theorem rawScore_upper (e f L n : ℕ) : rawScore e f L n ≤ 0.99 := by
  unfold rawScore
  have h1 : min ((e : ℚ) * 0.05) 0.25 ≤ 0.25 := min_le_right _ _
  have h2 : min ((f : ℚ) * 0.08) 0.24 ≤ 0.24 := min_le_right _ _
  have h3 : (if L > 100 then (0.05 : ℚ) else 0) ≤ 0.05 := by split <;> norm_num
  have h4 : (if L > 300 then (0.05 : ℚ) else 0) ≤ 0.05 := by split <;> norm_num
  have h5 : min (((n : ℚ) - 1) * 0.02) 0.1 ≤ 0.1 := min_le_right _ _
  linarith

theorem rawScore_mono (e f L : ℕ) {n n' : ℕ} (h : n ≤ n') :
    rawScore e f L n ≤ rawScore e f L n' := by
  unfold rawScore
  have hc : ((n : ℚ) - 1) * 0.02 ≤ ((n' : ℚ) - 1) * 0.02 := by
    have : (n : ℚ) ≤ (n' : ℚ) := by exact_mod_cast h
    nlinarith
  have := min_le_min hc (le_refl (0.1 : ℚ))
  linarith

theorem compute_importance_eq_raw (content : Str) (n : ℕ) :
    compute_importance_score content n =
      min (pyRound4 (rawScore
        (EMOTIONAL_KEYWORDS.countP (fun kw => containsSub kw (content.map Char.toLower)))
        (FACTUAL_KEYWORDS.countP (fun kw => containsSub kw (content.map Char.toLower)))
        content.length n)) 1 := rfl

theorem importanceSpec_eq_raw (content : Str) (n : ℕ) :
    importanceSpec content n =
      max 0 (min (pyRound4 (rawScore
        (EMOTIONAL_KEYWORDS.countP (fun kw => containsSub kw (content.map Char.toLower)))
        (FACTUAL_KEYWORDS.countP (fun kw => containsSub kw (content.map Char.toLower)))
        content.length n)) 1) := rfl

theorem compute_importance_collapse (content : Str) (n : ℕ) :
    compute_importance_score content n =
      rawScore
        (EMOTIONAL_KEYWORDS.countP (fun kw => containsSub kw (content.map Char.toLower)))
        (FACTUAL_KEYWORDS.countP (fun kw => containsSub kw (content.map Char.toLower)))
        content.length n := by
  rw [compute_importance_eq_raw]
  obtain ⟨z, hz⟩ := rawScore_cent
    (EMOTIONAL_KEYWORDS.countP (fun kw => containsSub kw (content.map Char.toLower)))
    (FACTUAL_KEYWORDS.countP (fun kw => containsSub kw (content.map Char.toLower)))
    content.length n
  rw [pyRound4_cent z hz]
  exact min_eq_left (le_trans (rawScore_upper _ _ _ _) (by norm_num))

theorem pyRound4_exact (q : ℚ) (z : ℤ) (h : q * 10000 = (z : ℚ)) : pyRound4 q = q := by
  unfold pyRound4
  rw [h, roundHalfEven_intCast, ← h]
  exact mul_div_cancel_right₀ q (by norm_num)

theorem roundHalfEven_eval (x : ℚ) (n : ℤ) (h1 : (n : ℚ) ≤ x) (h2 : x - (n : ℚ) < 1/2) :
    roundHalfEven x = n := by
  have hfl : ⌊x⌋ = n := Int.floor_eq_iff.mpr ⟨h1, by linarith⟩
  unfold roundHalfEven
  simp only [hfl]
  rw [if_pos (by linarith)]

theorem pyRound4_eval (x : ℚ) (n : ℤ) (h1 : (n : ℚ) ≤ x * 10000)
    (h2 : x * 10000 - (n : ℚ) < 1/2) : pyRound4 x = (n : ℚ) / 10000 := by
  unfold pyRound4
  rw [roundHalfEven_eval (x * 10000) n h1 h2]

theorem buildCandidates_cons_found (db : List Memory) (uid : String)
    (ids : List String) (now dist : ℚ) (idx : ℤ) (mem : Memory)
    (rest : List (ℚ × ℤ)) (hg : ¬(idx < 0 ∨ (ids.length : ℤ) ≤ idx))
    (hfind : List.find? (fun m => m.id == (ids.get? idx.toNat).getD "" && m.user_id == uid) db
      = some mem) :
    buildCandidates db uid ids now ((dist, idx) :: rest)
      = { id := mem.id, content := mem.content, memory_type := mem.memory_type
          importance_score := mem.importance_score
          semantic_similarity := pyRound4 dist
          recency_score := pyRound4 (compute_recency_score now mem.timestamp)
          composite_score := pyRound4 (WEIGHT_SEMANTIC * dist
            + WEIGHT_RECENCY * compute_recency_score now mem.timestamp
            + WEIGHT_IMPORTANCE * mem.importance_score
            + WEIGHT_FREQUENCY * min ((mem.reinforcement_count : ℚ) / 20) 1.0
            + WEIGHT_PERSONAL *
                (if mem.memory_type = "profile" ∨ mem.memory_type = "episodic"
                 then 0.8 else 0.5))
          timestamp := mem.timestamp
          reinforcement_count := mem.reinforcement_count }
        :: buildCandidates db uid ids now rest := by
  rw [buildCandidates, if_neg hg]
  dsimp only []
  rw [hfind]

theorem buildCandidatesChecked_eq_some (db : List Memory) (uid : String)
    (ids : List String) (now : ℚ) (pairs : List (ℚ × ℤ)) :
    buildCandidatesChecked db uid ids now pairs
      = some (buildCandidates db uid ids now pairs) := by
  induction pairs with
  | nil => rfl
  | cons p rest ih =>
    obtain ⟨dist, idx⟩ := p
    simp only [buildCandidatesChecked, buildCandidates]
    by_cases hg : idx < 0 ∨ (ids.length : ℤ) ≤ idx
    · rw [if_pos hg, if_pos hg]
      exact ih
    · rw [if_neg hg, if_neg hg]
      push_neg at hg
      have hlt : idx.toNat < ids.length := by omega
      obtain ⟨a, ha⟩ : ∃ a, ids.get? idx.toNat = some a := ⟨_, List.get?_eq_get hlt⟩
      rw [ha]
      simp only [Option.getD_some]
      cases hfind : List.find? (fun m => m.id == a && m.user_id == uid) db with
      | none => simpa [hfind] using ih
      | some mem => simp [hfind, ih]

theorem buildCandidates_skip_eq_filter (db : List Memory) (uid : String)
    (ids : List String) (now : ℚ) (pairs : List (ℚ × ℤ)) :
    buildCandidates db uid ids now pairs
      = buildCandidates db uid ids now
          (pairs.filter (fun p => decide (0 ≤ p.2 ∧ p.2 < (ids.length : ℤ)))) := by
  induction pairs with
  | nil => rfl
  | cons p rest ih =>
    obtain ⟨dist, idx⟩ := p
    by_cases hg : idx < 0 ∨ (ids.length : ℤ) ≤ idx
    · have hv : decide (0 ≤ (dist, idx).2 ∧ (dist, idx).2 < (ids.length : ℤ)) = false := by
        rcases hg with hg | hg <;> simp only [decide_eq_false_iff_not] <;> omega
      rw [List.filter_cons, if_neg (by simp [hv])]
      rw [buildCandidates, if_pos hg]
      exact ih
    · have hv : decide (0 ≤ (dist, idx).2 ∧ (dist, idx).2 < (ids.length : ℤ)) = true := by
        push_neg at hg
        simp only [decide_eq_true_eq]
        omega
      rw [List.filter_cons, if_pos (by simp [hv])]
      simp only [buildCandidates]
      rw [if_neg hg, if_neg hg]
      cases hfind : List.find?
          (fun m => m.id == (ids.get? idx.toNat).getD "" && m.user_id == uid) db with
      | none => simp [hfind, ih]
      | some mem => simp [hfind, ih]

theorem buildCandidates_mem_db (db : List Memory) (uid : String)
    (ids : List String) (now : ℚ) (pairs : List (ℚ × ℤ)) :
    ∀ c ∈ buildCandidates db uid ids now pairs,
      ∃ m ∈ db, m.id = c.id ∧ m.user_id = uid := by
  induction pairs with
  | nil => intro c hc; simp [buildCandidates] at hc
  | cons p rest ih =>
    obtain ⟨dist, idx⟩ := p
    intro c hc
    rw [buildCandidates] at hc
    by_cases hg : idx < 0 ∨ (ids.length : ℤ) ≤ idx
    · rw [if_pos hg] at hc
      exact ih c hc
    · rw [if_neg hg] at hc
      dsimp only [] at hc
      cases hfind : List.find?
          (fun m => m.id == (ids.get? idx.toNat).getD "" && m.user_id == uid) db with
      | none =>
        rw [hfind] at hc
        exact ih c hc
      | some mem =>
        rw [hfind] at hc
        rcases List.mem_cons.mp hc with hc | hc
        · have hmem := List.mem_of_find?_eq_some hfind
          have hp := List.find?_some hfind
          rw [Bool.and_eq_true, beq_iff_eq, beq_iff_eq] at hp
          exact ⟨mem, hmem, by rw [hc], hp.2⟩
        · exact ih c hc

theorem filter_orderedInsert_score (v : ℚ) (a : RankedCandidate)
    (l : List RankedCandidate) :
    (List.orderedInsert byScoreDesc a l).filter (fun c => decide (c.composite_score = v))
      = if a.composite_score = v
          then a :: l.filter (fun c => decide (c.composite_score = v))
          else l.filter (fun c => decide (c.composite_score = v)) := by
  induction l with
  | nil => by_cases hv : a.composite_score = v <;> simp [List.orderedInsert, hv]
  | cons b l ih =>
    simp only [List.orderedInsert]
    by_cases hr : byScoreDesc a b
    · rw [if_pos hr]
      by_cases hv : a.composite_score = v <;> simp [List.filter_cons, hv]
    · rw [if_neg hr]
      by_cases hv : a.composite_score = v
      · have hb : ¬(b.composite_score = v) := by
          intro hbv
          exact hr (by unfold byScoreDesc; rw [hbv, hv])
        simp [List.filter_cons, hb, ih, hv]
      · by_cases hbv : b.composite_score = v <;> simp [List.filter_cons, hbv, ih, hv]

theorem filter_insertionSort_score (v : ℚ) (l : List RankedCandidate) :
    (List.insertionSort byScoreDesc l).filter (fun c => decide (c.composite_score = v))
      = l.filter (fun c => decide (c.composite_score = v)) := by
  induction l with
  | nil => rfl
  | cons a l ih =>
    simp only [List.insertionSort]
    rw [filter_orderedInsert_score]
    by_cases hv : a.composite_score = v <;> simp [List.filter_cons, hv, ih]

/-! ## Claim theorems: scoring (C3, C4) -/

/-- C3: `compute_recency_score` is the claimed step function of the memory's
age in hours, monotonically non-increasing in age, with half-open lower
boundaries (age exactly 24h scores 0.65) and the claimed sample values at
ages 0.5h, 2h, 100h, 500h, 2000h, 20000h. -/
theorem recency_score_step_spec :
    (∀ now ts : ℚ, compute_recency_score now ts = recencyStep ((now - ts) / 3600))
    ∧ (∀ a b : ℚ, a ≤ b → recencyStep b ≤ recencyStep a)
    ∧ compute_recency_score (24 * 3600) 0 = 0.65
    ∧ compute_recency_score 1800 0 = 1.0
    ∧ compute_recency_score 7200 0 = 0.85
    ∧ compute_recency_score 360000 0 = 0.65
    ∧ compute_recency_score 1800000 0 = 0.45
    ∧ compute_recency_score 7200000 0 = 0.25
    ∧ compute_recency_score 72000000 0 = 0.1 := by
  refine ⟨fun now ts => rfl, ?_, ?_, ?_, ?_, ?_, ?_, ?_, ?_⟩
  · intro a b hab
    unfold recencyStep
    split_ifs <;> linarith
  all_goals norm_num [compute_recency_score]

/-- C3 witness: monotonicity instantiated at ages 2h and 24h. -/
theorem recency_score_step_spec_witness :
    (2 : ℚ) ≤ 24 ∧ recencyStep 24 ≤ recencyStep 2 :=
  ⟨by norm_num, recency_score_step_spec.2.1 2 24 (by norm_num)⟩

/-- C4: for reinforcement count `n ≥ 1` the importance score equals the
spec's formula (baseline plus capped bonuses, clamped to `[0,1]` and rounded
to 4 decimals), lies in `[0, 1]`, and is non-decreasing in `n` for fixed
content. -/
theorem importance_score_spec (content : Str) (n : ℕ) (hn : 1 ≤ n) :
    compute_importance_score content n = importanceSpec content n
    ∧ 0 ≤ compute_importance_score content n
    ∧ compute_importance_score content n ≤ 1
    ∧ ∀ n', n ≤ n' → compute_importance_score content n ≤ compute_importance_score content n' := by
  set e := EMOTIONAL_KEYWORDS.countP (fun kw => containsSub kw (content.map Char.toLower)) with he
  set f := FACTUAL_KEYWORDS.countP (fun kw => containsSub kw (content.map Char.toLower)) with hf
  have hcol := compute_importance_collapse content n
  rw [← he, ← hf] at hcol
  have hlow := rawScore_lower e f content.length n hn
  have hup := rawScore_upper e f content.length n
  refine ⟨?_, ?_, ?_, ?_⟩
  · rw [hcol, importanceSpec_eq_raw, ← he, ← hf]
    obtain ⟨z, hz⟩ := rawScore_cent e f content.length n
    rw [pyRound4_cent z hz, min_eq_left (le_trans hup (by norm_num)),
      max_eq_right (le_trans (by norm_num) hlow)]
  · rw [hcol]; linarith
  · rw [hcol]; linarith
  · intro n' hn'
    have hcol' := compute_importance_collapse content n'
    rw [← he, ← hf] at hcol'
    rw [hcol, hcol']
    exact rawScore_mono e f content.length hn'

/-- C4 witness: the theorem instantiated at concrete content and counts. -/
theorem importance_score_spec_witness :
    compute_importance_score ("hello world".data) 1 = importanceSpec ("hello world".data) 1
    ∧ 0 ≤ compute_importance_score ("hello world".data) 1
    ∧ compute_importance_score ("hello world".data) 1 ≤ 1
    ∧ compute_importance_score ("hello world".data) 1 ≤ compute_importance_score ("hello world".data) 7 :=
  ⟨(importance_score_spec ("hello world".data) 1 (by norm_num)).1,
   (importance_score_spec ("hello world".data) 1 (by norm_num)).2.1,
   (importance_score_spec ("hello world".data) 1 (by norm_num)).2.2.1,
   (importance_score_spec ("hello world".data) 1 (by norm_num)).2.2.2 7 (by norm_num)⟩

/-! ## Claim theorems: ranking (C1, C5, C6, C10) -/

/-- C10: during ranking, every (similarity, ordinal) search pair whose
ordinal is negative or not below the id-list length is skipped: the
fallible variant of the candidate loop (where indexing out of bounds is an
`IndexError`) always succeeds and agrees with the total loop, and the loop
computes the same candidates as if the invalid pairs (including `-1`
padding) had been removed up front. -/
theorem candidate_loop_guard_safe (db : List Memory) (uid : String)
    (ids : List String) (now : ℚ) (pairs : List (ℚ × ℤ)) :
    buildCandidatesChecked db uid ids now pairs
      = some (buildCandidates db uid ids now pairs)
    ∧ buildCandidates db uid ids now pairs
        = buildCandidates db uid ids now
            (pairs.filter (fun p => decide (0 ≤ p.2 ∧ p.2 < (ids.length : ℤ)))) :=
  ⟨buildCandidatesChecked_eq_some db uid ids now pairs,
   buildCandidates_skip_eq_filter db uid ids now pairs⟩

/-- C5: when the user's index is absent or holds zero vectors, ranking
returns the empty list (and, the embedding being total, no exception). -/
theorem rank_empty_index_returns_nil {E : Type} (search : ℕ → List (ℚ × ℤ))
    (now : ℚ) (uid : String) (query : Str) (top_k : Option ℕ) (s : AppState E)
    (h : s.files uid = none ∨ ∃ ids, s.files uid = some ([], ids)) :
    (retrieve_relevant_memories search now uid query top_k s).1 = [] := by
  have hc : candidatesOf search now uid top_k s = [] := by
    unfold candidatesOf load_faiss_index
    rcases h with h | ⟨ids, h⟩ <;> rw [h] <;> simp
  simp [retrieve_relevant_memories, hc]

/-- C5 witness: a user with no index files at all. -/
theorem rank_empty_index_returns_nil_witness :
    cexState.files "u2" = none
    ∧ (retrieve_relevant_memories cexSearch 7200 "u2" ("hi".data) (some 5) cexState).1 = [] :=
  ⟨by simp [cexState], rank_empty_index_returns_nil cexSearch 7200 "u2" ("hi".data)
    (some 5) cexState (Or.inl (by simp [cexState]))⟩

/-- C6: ranking is read-only — the state (database rows with their
reinforcement counts, timestamps, last-access times and importance scores,
and the persisted index/id-list files) is returned unchanged. -/
theorem rank_is_read_only {E : Type} (search : ℕ → List (ℚ × ℤ)) (now : ℚ)
    (uid : String) (query : Str) (top_k : Option ℕ) (s : AppState E) :
    (retrieve_relevant_memories search now uid query top_k s).2 = s
    ∧ (retrieve_relevant_memories search now uid query top_k s).2.db = s.db
    ∧ (retrieve_relevant_memories search now uid query top_k s).2.files = s.files :=
  ⟨rfl, rfl, rfl⟩

/-- C1 (amended): for any requested `k ≥ 1` the ranking returns at most `k`
candidates, each referring to a memory still present in the database for
that user, sorted non-increasingly in the candidates' `composite_score`
field — the claimed weighted sum rounded to 4 decimal places — with ties in
that rounded score keeping the original similarity-search order (for every
score value, the returned candidates with that score form a sublist of the
pre-sort candidate list). -/
theorem rank_ranked_list_spec {E : Type} (search : ℕ → List (ℚ × ℤ)) (now : ℚ)
    (uid : String) (query : Str) (k : ℕ) (s : AppState E) (hk : 1 ≤ k) :
    ((retrieve_relevant_memories search now uid query (some k) s).1.length ≤ k)
    ∧ (∀ c ∈ (retrieve_relevant_memories search now uid query (some k) s).1,
        ∃ m ∈ s.db, m.id = c.id ∧ m.user_id = uid)
    ∧ List.Sorted byScoreDesc (retrieve_relevant_memories search now uid query (some k) s).1
    ∧ ∀ v : ℚ,
        List.Sublist
          ((retrieve_relevant_memories search now uid query (some k) s).1.filter
            (fun c => decide (c.composite_score = v)))
          ((candidatesOf search now uid (some k) s).filter
            (fun c => decide (c.composite_score = v))) := by
  refine ⟨?_, ?_, ?_, ?_⟩
  · simpa [retrieve_relevant_memories, List.length_take] using min_le_left k _
  · intro c hc
    have h1 : c ∈ List.insertionSort byScoreDesc (candidatesOf search now uid (some k) s) :=
      List.take_subset _ _ hc
    have h2 : c ∈ candidatesOf search now uid (some k) s :=
      (List.mem_insertionSort byScoreDesc).mp h1
    revert h2
    unfold candidatesOf
    rcases hl : load_faiss_index s uid with ⟨o, ids⟩
    cases o with
    | none => intro h2; simp at h2
    | some index =>
      dsimp only []
      by_cases hz : index.length = 0
      · rw [if_pos hz]
        intro h2; simp at h2
      · rw [if_neg hz]
        intro h2
        exact buildCandidates_mem_db s.db uid ids now _ c h2
  · exact List.Pairwise.sublist (List.take_sublist _ _)
      (List.sorted_insertionSort byScoreDesc _)
  · intro v
    have hfs := filter_insertionSort_score v (candidatesOf search now uid (some k) s)
    exact hfs ▸ List.Sublist.filter _ (List.take_sublist _ _)

/-- C1 witness: the amended properties at the concrete two-memory state. -/
theorem rank_ranked_list_spec_witness :
    ((retrieve_relevant_memories cexSearch 7200 "u1" ("hobby".data) (some 5) cexState).1.length ≤ 5)
    ∧ (∀ c ∈ (retrieve_relevant_memories cexSearch 7200 "u1" ("hobby".data) (some 5) cexState).1,
        ∃ m ∈ cexState.db, m.id = c.id ∧ m.user_id = "u1")
    ∧ List.Sorted byScoreDesc
        (retrieve_relevant_memories cexSearch 7200 "u1" ("hobby".data) (some 5) cexState).1 :=
  ⟨(rank_ranked_list_spec cexSearch 7200 "u1" ("hobby".data) 5 cexState (by norm_num)).1,
   (rank_ranked_list_spec cexSearch 7200 "u1" ("hobby".data) 5 cexState (by norm_num)).2.1,
   (rank_ranked_list_spec cexSearch 7200 "u1" ("hobby".data) 5 cexState (by norm_num)).2.2.1⟩

/-- C1 counterexample: at the concrete two-memory state the code returns
candidates A then B (both carry the rounded `composite_score` 0.645 and the
stable sort keeps the search order), yet B's composite score as the claim
defines it — the unrounded weighted sum recomputed from the candidate's own
similarity, recency, importance, frequency and personal factors — is
0.64504, strictly above A's 0.645, so the returned list is not sorted in
non-increasing order of that composite score. -/
theorem rank_sorted_by_true_composite_counterexample :
    (retrieve_relevant_memories cexSearch 7200 "u1" ("hobby".data) (some 5) cexState).1
        = [cexCandA, cexCandB]
    ∧ claimComposite cexCandA = 0.645
    ∧ claimComposite cexCandB = 0.64504
    ∧ ¬ List.Sorted (fun a b => claimComposite b ≤ claimComposite a)
        (retrieve_relevant_memories cexSearch 7200 "u1" ("hobby".data) (some 5) cexState).1 := by
  have hr : compute_recency_score 7200 0 = 0.85 := by norm_num [compute_recency_score]
  have hcand : candidatesOf cexSearch 7200 "u1" (some 5) cexState
      = buildCandidates cexState.db "u1" ["a", "b"] 7200 [(0.8, 0), (0.7501, 1)] := rfl
  have hfindA : List.find?
      (fun m => m.id == ((["a", "b"] : List String).get? (0 : ℤ).toNat).getD "" && m.user_id == "u1")
      cexState.db = some cexMemA := rfl
  have hfindB : List.find?
      (fun m => m.id == ((["a", "b"] : List String).get? (1 : ℤ).toNat).getD "" && m.user_id == "u1")
      cexState.db = some cexMemB := rfl
  have hstepA := buildCandidates_cons_found cexState.db "u1" ["a", "b"] 7200 0.8 0 cexMemA
    [(0.7501, 1)] (by norm_num) hfindA
  have hstepB := buildCandidates_cons_found cexState.db "u1" ["a", "b"] 7200 0.7501 1 cexMemB
    [] (by norm_num) hfindB
  have hnil : buildCandidates cexState.db "u1" ["a", "b"] 7200 [] = [] := rfl
  have hbc : buildCandidates cexState.db "u1" ["a", "b"] 7200 [(0.8, 0), (0.7501, 1)]
      = [cexCandA, cexCandB] := by
    rw [hstepA, hstepB, hnil]
    simp only [cexMemA, cexMemB, hr]
    rw [if_neg (by decide : ¬(("semantic" : String) = "profile" ∨ ("semantic" : String) = "episodic"))]
    rw [min_eq_left (by norm_num : ((1 : ℕ) : ℚ) / 20 ≤ 1.0)]
    norm_num [cexCandA, cexCandB, RankedCandidate.mk.injEq,
      WEIGHT_SEMANTIC, WEIGHT_RECENCY, WEIGHT_IMPORTANCE, WEIGHT_FREQUENCY, WEIGHT_PERSONAL]
    refine ⟨⟨pyRound4_exact _ 8000 (by norm_num), pyRound4_exact _ 8500 (by norm_num),
      pyRound4_exact _ 6450 (by norm_num)⟩,
      pyRound4_exact _ 7501 (by norm_num), pyRound4_exact _ 8500 (by norm_num), ?_⟩
    rw [pyRound4_eval _ 6450 (by norm_num) (by norm_num)]
    norm_num
  have hsorted : List.insertionSort byScoreDesc [cexCandA, cexCandB] = [cexCandA, cexCandB] := by
    simp only [List.insertionSort, List.orderedInsert]
    rw [if_pos (show byScoreDesc cexCandA cexCandB by unfold byScoreDesc; norm_num [cexCandA, cexCandB])]
  have hres : (retrieve_relevant_memories cexSearch 7200 "u1" ("hobby".data) (some 5) cexState).1
      = [cexCandA, cexCandB] := by
    show (List.insertionSort byScoreDesc (candidatesOf cexSearch 7200 "u1" (some 5) cexState)).take 5
      = [cexCandA, cexCandB]
    rw [hcand, hbc, hsorted]
    rfl
  have hcA : claimComposite cexCandA = 0.645 := by
    unfold claimComposite
    simp only [cexCandA]
    rw [if_neg (by decide : ¬(("semantic" : String) = "profile" ∨ ("semantic" : String) = "episodic")),
      min_eq_left (by norm_num : ((1 : ℕ) : ℚ) / 20 ≤ 1)]
    norm_num
  have hcB : claimComposite cexCandB = 0.64504 := by
    unfold claimComposite
    simp only [cexCandB]
    rw [if_neg (by decide : ¬(("semantic" : String) = "profile" ∨ ("semantic" : String) = "episodic")),
      min_eq_left (by norm_num : ((1 : ℕ) : ℚ) / 20 ≤ 1)]
    norm_num
  refine ⟨hres, hcA, hcB, ?_⟩
  rw [hres]
  intro hs
  have h1 := (List.sorted_cons.mp hs).1 cexCandB (by simp)
  rw [hcA, hcB] at h1
  norm_num at h1

/-! ## Index store lemmas and claims (C8, C9) -/

theorem stampFrom_proj (sel : List Memory) (m : Memory) :
    (stampFrom sel m).id = m.id ∧ (stampFrom sel m).user_id = m.user_id
    ∧ (stampFrom sel m).memory_type = m.memory_type
    ∧ (stampFrom sel m).timestamp = m.timestamp
    ∧ (stampFrom sel m).content = m.content := by
  unfold stampFrom
  cases firstIdx (fun x => x.id == m.id) sel <;> simp

theorem firstIdx_at (sel : List Memory) (h : (sel.map Memory.id).Nodup)
    (i : ℕ) (hi : i < sel.length) :
    firstIdx (fun x => x.id == (sel.get ⟨i, hi⟩).id) sel = some i := by
  induction sel generalizing i with
  | nil => exact absurd hi (by simp)
  | cons a t ih =>
    have hn : (∀ x ∈ t, ¬x.id = a.id) ∧ (t.map Memory.id).Nodup := by simpa using h
    rcases i with _ | j
    · simp [firstIdx]
    · have hj : j < t.length := by simpa using hi
      have hget : ((a :: t).get ⟨j + 1, hi⟩) = t.get ⟨j, hj⟩ := rfl
      have hne : ¬(a.id == (t.get ⟨j, hj⟩).id) = true := by
        simp only [beq_iff_eq]
        intro he
        exact hn.1 (t.get ⟨j, hj⟩) (t.get_mem _ _) he.symm
      rw [hget, firstIdx, if_neg hne, ih (by simpa using hn.2) j hj]
      rfl

theorem orderedInsert_map_stamp (f : Memory → Memory)
    (hts : ∀ m, (f m).timestamp = m.timestamp) (a : Memory) (l : List Memory) :
    List.orderedInsert byTimestampDesc (f a) (l.map f)
      = (List.orderedInsert byTimestampDesc a l).map f := by
  induction l with
  | nil => rfl
  | cons b t ih =>
    simp only [List.map, List.orderedInsert]
    by_cases hr : byTimestampDesc a b
    · rw [if_pos (show byTimestampDesc (f a) (f b) by
        unfold byTimestampDesc; rw [hts, hts]; exact hr), if_pos hr]
      simp
    · rw [if_neg (show ¬byTimestampDesc (f a) (f b) by
        unfold byTimestampDesc; rw [hts, hts]; exact hr), if_neg hr]
      simp [ih]

theorem insertionSort_map_stamp (f : Memory → Memory)
    (hts : ∀ m, (f m).timestamp = m.timestamp) (l : List Memory) :
    List.insertionSort byTimestampDesc (l.map f)
      = (List.insertionSort byTimestampDesc l).map f := by
  induction l with
  | nil => rfl
  | cons a t ih =>
    simp only [List.map, List.insertionSort]
    rw [ih, orderedInsert_map_stamp f hts]

theorem get_memories_map_stamp (db : List Memory) (uid : String)
    (t : Option String) (lim : ℕ) (f : Memory → Memory)
    (hu : ∀ m, (f m).user_id = m.user_id)
    (hty : ∀ m, (f m).memory_type = m.memory_type)
    (hts : ∀ m, (f m).timestamp = m.timestamp) :
    get_memories_by_user (db.map f) uid t lim
      = (get_memories_by_user db uid t lim).map f := by
  unfold get_memories_by_user
  rw [List.filter_map]
  have hp : ((fun m => m.user_id == uid &&
        match t with
        | none => true
        | some ty => m.memory_type == ty) ∘ f)
      = (fun m => m.user_id == uid &&
          match t with
          | none => true
          | some ty => m.memory_type == ty) := by
    funext m
    simp only [Function.comp_apply, hu m, hty m]
  rw [hp, insertionSort_map_stamp f hts, List.map_take]

theorem get_memories_nodup_ids (db : List Memory) (uid : String)
    (t : Option String) (lim : ℕ) (h : (db.map Memory.id).Nodup) :
    ((get_memories_by_user db uid t lim).map Memory.id).Nodup := by
  unfold get_memories_by_user
  refine List.Nodup.sublist ((List.take_sublist _ _).map Memory.id) ?_
  refine (((List.perm_insertionSort byTimestampDesc _).map Memory.id).nodup_iff).mpr ?_
  exact List.Nodup.sublist ((List.filter_sublist db).map Memory.id) h

/-- C8: appending to a user's index returns the ordinal equal to the length
of the user's identifier list before the call, writes back the vector list
and id list extended together, and preserves the parallel-structure
invariant: vector count equals id count and the new ordinal resolves to the
appended memory id. -/
theorem index_append_spec {E : Type} (emb : Str → E) (uid memory_id : String)
    (content : Str) (s : AppState E)
    (hwf : ∀ index ids, s.files uid = some (index, ids) → index.length = ids.length) :
    (add_memory_to_index emb uid memory_id content s).1
        = (load_faiss_index s uid).2.length
    ∧ ((add_memory_to_index emb uid memory_id content s).2).files uid
        = some ((load_faiss_index s uid).1.getD [] ++ [emb content],
            (load_faiss_index s uid).2 ++ [memory_id])
    ∧ ∀ index ids,
        ((add_memory_to_index emb uid memory_id content s).2).files uid
            = some (index, ids) →
          index.length = ids.length
          ∧ ids.get? (add_memory_to_index emb uid memory_id content s).1
              = some memory_id := by
  have h2 : ((add_memory_to_index emb uid memory_id content s).2).files uid
      = some ((load_faiss_index s uid).1.getD [] ++ [emb content],
          (load_faiss_index s uid).2 ++ [memory_id]) := by
    simp [add_memory_to_index, save_faiss_index]
  refine ⟨rfl, h2, ?_⟩
  intro index ids hsome
  rw [h2] at hsome
  have hidx : (load_faiss_index s uid).1.getD [] ++ [emb content] = index :=
    congrArg Prod.fst (Option.some.inj hsome)
  have hids : (load_faiss_index s uid).2 ++ [memory_id] = ids :=
    congrArg Prod.snd (Option.some.inj hsome)
  subst hidx
  subst hids
  constructor
  · simp only [List.length_append, List.length_singleton]
    cases hf : s.files uid with
    | none => simp [load_faiss_index, hf]
    | some pair =>
      obtain ⟨pi, pm⟩ := pair
      have := hwf pi pm hf
      simp [load_faiss_index, hf, this]
  · show ((load_faiss_index s uid).2 ++ [memory_id]).get?
        (load_faiss_index s uid).2.length = some memory_id
    simp [List.get?_eq_getElem?]

/-- C8 witness: first append into an absent index yields ordinal 0 and a
consistent singleton pair. -/
theorem index_append_spec_witness :
    (add_memory_to_index List.length "u1" "m1" ("abc".data) cexEmptyState).1 = 0
    ∧ ((add_memory_to_index List.length "u1" "m1" ("abc".data) cexEmptyState).2).files "u1"
        = some ([3], ["m1"]) :=
  have h := index_append_spec List.length "u1" "m1" ("abc".data) cexEmptyState
    (by intro index ids h; simp [cexEmptyState] at h)
  ⟨h.1, h.2.1⟩

/-- C9: rebuilding is deterministic over the memory set — a second rebuild
from the unchanged rows yields the identical persisted ordinal-to-identifier
mapping; each rebuild re-stamps the memory at position `i` of the selection
with vector-slot `i`; and when the user has no semantic memories the rebuild
returns the state unchanged, writing nothing. -/
theorem index_rebuild_spec {E : Type} (emb : Str → E) (uid : String)
    (s : AppState E) (hnd : (s.db.map Memory.id).Nodup) :
    (get_memories_by_user s.db uid (some "semantic") 100 = [] →
        rebuild_user_index emb uid s = s)
    ∧ (∀ i (hi : i < (get_memories_by_user s.db uid (some "semantic") 100).length),
        ∀ m' ∈ (rebuild_user_index emb uid s).db,
          m'.id = ((get_memories_by_user s.db uid (some "semantic") 100).get ⟨i, hi⟩).id →
            m'.faiss_index_id = some i)
    ∧ (rebuild_user_index emb uid (rebuild_user_index emb uid s)).files uid
        = (rebuild_user_index emb uid s).files uid := by
  set sel := get_memories_by_user s.db uid (some "semantic") 100 with hseldef
  have hselnd : (sel.map Memory.id).Nodup :=
    get_memories_nodup_ids s.db uid (some "semantic") 100 hnd
  have hproj := stampFrom_proj sel
  refine ⟨?_, ?_, ?_⟩
  · intro hempty
    unfold rebuild_user_index
    rw [← hseldef, if_pos (by simp [hempty])]
  · intro i hi m' hm' hid
    have hne : ¬sel.isEmpty := by
      rcases sel with _ | _
      · exact absurd hi (by simp)
      · simp
    have hdb : (rebuild_user_index emb uid s).db = s.db.map (stampFrom sel) := by
      unfold rebuild_user_index
      rw [← hseldef, if_neg hne]
      rfl
    rw [hdb] at hm'
    obtain ⟨m, _, rfl⟩ := List.mem_map.mp hm'
    have hmid : (stampFrom sel m).id = m.id := (hproj m).1
    rw [hmid] at hid
    unfold stampFrom
    rw [hid, firstIdx_at sel hselnd i hi]
  · by_cases hempty : sel.isEmpty
    · have h0 : rebuild_user_index emb uid s = s := by
        unfold rebuild_user_index
        rw [← hseldef, if_pos hempty]
      rw [h0, h0]
    · set s1 := rebuild_user_index emb uid s with hs1
      have hdb : s1.db = s.db.map (stampFrom sel) := by
        rw [hs1]
        unfold rebuild_user_index
        rw [← hseldef, if_neg hempty]
        rfl
      have hsel2 : get_memories_by_user s1.db uid
          (some "semantic") 100 = sel.map (stampFrom sel) := by
        rw [hdb, get_memories_map_stamp s.db uid (some "semantic") 100 (stampFrom sel)
          (fun m => (hproj m).2.1) (fun m => (hproj m).2.2.1) (fun m => (hproj m).2.2.2.1),
          ← hseldef]
      have hne2 : ¬(sel.map (stampFrom sel)).isEmpty := by
        rcases sel with _ | _
        · exact absurd rfl hempty
        · simp
      have hids : (sel.map (stampFrom sel)).map (·.id) = sel.map (·.id) := by
        rw [List.map_map]
        exact List.map_congr_left (fun m _ => (hproj m).1)
      have hconts : (sel.map (stampFrom sel)).map (fun m => emb m.content)
          = sel.map (fun m => emb m.content) := by
        rw [List.map_map]
        exact List.map_congr_left (fun m _ => by
          simp only [Function.comp_apply, (hproj m).2.2.2.2])
      have hfiles1 : s1.files uid
          = some (sel.map (fun m => emb m.content), sel.map (·.id)) := by
        rw [hs1]
        unfold rebuild_user_index
        rw [← hseldef, if_neg hempty]
        simp [save_faiss_index]
      have hfiles2 : (rebuild_user_index emb uid s1).files uid
          = some ((sel.map (stampFrom sel)).map (fun m => emb m.content),
              (sel.map (stampFrom sel)).map (·.id)) := by
        unfold rebuild_user_index
        rw [hsel2]
        rw [if_neg hne2]
        simp [save_faiss_index]
      rw [hfiles1, hfiles2, hids, hconts]

/-- C9 witness: rebuild determinism at the concrete two-memory state. -/
theorem index_rebuild_spec_witness :
    (rebuild_user_index (fun _ => ())
          "u1" (rebuild_user_index (fun _ => ()) "u1" cexState)).files "u1"
      = (rebuild_user_index (fun _ => ()) "u1" cexState).files "u1" :=
  (index_rebuild_spec (fun _ => ()) "u1" cexState
    (by simp [cexState, cexMemA, cexMemB])).2.2

/-! ## Prompt assembler lemmas and claims (C2, C7) -/

theorem est_ge_one (t : Str) : 1 ≤ estimate_tokens t := le_max_left 1 _

theorem len_le_four_est (t : Str) : (t.length : ℤ) ≤ 4 * estimate_tokens t + 3 := by
  unfold estimate_tokens
  omega

theorem est_truncate_le (t : Str) (b : ℤ) (hb : 1 ≤ b) :
    estimate_tokens (truncate_to_tokens t b) ≤ b := by
  have hm : MARKER.length = 3 := rfl
  unfold truncate_to_tokens estimate_tokens
  by_cases h1 : (t.length : ℤ) ≤ b * 4
  · rw [if_pos h1]
    omega
  · rw [if_neg h1, if_pos (show (0 : ℤ) ≤ b * 4 by omega)]
    rw [List.length_append, List.length_take, hm]
    omega

theorem joinSep_nl2_length (l : List Str) :
    (joinSep ("\n\n".data) l).length ≤ (l.map List.length).sum + 2 * l.length := by
  induction l with
  | nil => simp [joinSep]
  | cons x xs ih =>
    cases xs with
    | nil => simp [joinSep]
    | cons y ys =>
      rw [joinSep]
      simp only [List.length_append, List.map, List.sum_cons, List.length_cons,
        List.length_nil] at ih ⊢
      omega

theorem joinSep_head_tail (sep a b : Str) (L : List Str) :
    ∃ mid : Str, joinSep sep (a :: (L ++ [b])) = a ++ mid ++ b := by
  induction L generalizing a with
  | nil => exact ⟨sep, by simp [joinSep]⟩
  | cons x L ih =>
    obtain ⟨mid, hmid⟩ := ih x
    refine ⟨sep ++ x ++ mid, ?_⟩
    show joinSep sep (a :: x :: (L ++ [b])) = a ++ (sep ++ x ++ mid) ++ b
    rw [joinSep, hmid]
    simp [List.append_assoc]

theorem build_prompt_token_bound (q : Str) (profile : Option UserProfile)
    (mems : List RankedCandidate) (sess : List SessionMessage) (mt : ℤ)
    (h : 4 ≤ mt - (estimate_tokens SYSTEM_INSTRUCTION
        + estimate_tokens ("\nUser: ".data ++ q ++ "\nAssistant:".data) + 50)) :
    estimate_tokens (build_prompt q profile mems sess mt) ≤ mt := by
  unfold build_prompt
  dsimp only []
  set qp := "\nUser: ".data ++ q ++ "\nAssistant:".data with hqp
  set P0 := build_profile_summary profile with hP0
  set M0 := build_memory_context mems with hM0
  set S0 := build_session_summary sess with hS0
  set r0 := mt - (estimate_tokens SYSTEM_INSTRUCTION + estimate_tokens qp + 50) with hr0
  set P := (if Int.fdiv r0 4 < estimate_tokens P0
    then truncate_to_tokens P0 (Int.fdiv r0 4) else P0) with hP
  set r1 := r0 - estimate_tokens P with hr1
  set M := (if Int.fdiv r1 2 < estimate_tokens M0
    then truncate_to_tokens M0 (Int.fdiv r1 2) else M0) with hM
  set r2 := r1 - estimate_tokens M with hr2
  set Se := (if r2 < estimate_tokens S0 then truncate_to_tokens S0 r2 else S0) with hSe
  have hr0ge : 4 ≤ r0 := h
  have hfd4 : Int.fdiv r0 4 = r0 / 4 := Int.fdiv_eq_ediv r0 (by norm_num)
  have hPcap : estimate_tokens P ≤ r0 / 4 := by
    rw [hP]
    split_ifs with hc
    · rw [← hfd4]
      exact est_truncate_le P0 _ (by rw [hfd4]; omega)
    · rw [hfd4] at hc
      omega
  have hP1 : 1 ≤ estimate_tokens P := est_ge_one P
  have hr1ge : 3 ≤ r1 := by rw [hr1]; omega
  have hfd2 : Int.fdiv r1 2 = r1 / 2 := Int.fdiv_eq_ediv r1 (by norm_num)
  have hMcap : estimate_tokens M ≤ r1 / 2 := by
    rw [hM]
    split_ifs with hc
    · rw [← hfd2]
      exact est_truncate_le M0 _ (by rw [hfd2]; omega)
    · rw [hfd2] at hc
      omega
  have hM1 : 1 ≤ estimate_tokens M := est_ge_one M
  have hr2ge : 2 ≤ r2 := by rw [hr2]; omega
  have hSecap : estimate_tokens Se ≤ r2 := by
    rw [hSe]
    split_ifs with hc
    · exact est_truncate_le S0 _ (by omega)
    · omega
  set L := [SYSTEM_INSTRUCTION]
    ++ (if P.isEmpty then [] else [P])
    ++ (if M.isEmpty then [] else [M])
    ++ (if Se.isEmpty then [] else [Se])
    ++ [qp] with hL
  have hjoin := joinSep_nl2_length L
  have hsec : ((L.map List.length).sum : ℤ) + 2 * L.length
      ≤ (SYSTEM_INSTRUCTION.length : ℤ) + P.length + M.length + Se.length + qp.length + 10 := by
    rw [hL]
    split_ifs <;> simp <;> push_cast <;> omega
  have hlenS := len_le_four_est SYSTEM_INSTRUCTION
  have hlenP := len_le_four_est P
  have hlenM := len_le_four_est M
  have hlenSe := len_le_four_est Se
  have hlenQ := len_le_four_est qp
  have heS : 1 ≤ estimate_tokens SYSTEM_INSTRUCTION := est_ge_one _
  have heQ : 1 ≤ estimate_tokens qp := est_ge_one _
  show estimate_tokens (joinSep ("\n\n".data) L) ≤ mt
  unfold estimate_tokens
  omega

/-- C2 (amended): with the code's token estimate
`tokens(text) = max(1, len(text) // 4)`, whenever the budget left after
reserving the system instruction, the query section and the 50-token safety
buffer is at least 4 tokens, the assembled prompt never exceeds
`max_tokens` (in particular never by more than one truncation marker); and
truncation to a nonnegative token budget keeps exactly `budget*4`
characters and appends the continuation marker iff truncation occurred. -/
theorem assemble_prompt_budget_spec :
    (∀ (q : Str) (profile : Option UserProfile) (mems : List RankedCandidate)
        (sess : List SessionMessage) (mt : ℤ),
      4 ≤ mt - (estimate_tokens SYSTEM_INSTRUCTION
          + estimate_tokens ("\nUser: ".data ++ q ++ "\nAssistant:".data) + 50) →
      estimate_tokens (build_prompt q profile mems sess mt) ≤ mt)
    ∧ (∀ (t : Str) (b : ℤ), 0 ≤ b →
        ((t.length : ℤ) ≤ b * 4 → truncate_to_tokens t b = t)
        ∧ (b * 4 < (t.length : ℤ) →
            truncate_to_tokens t b = t.take (b * 4).toNat ++ MARKER)) := by
  refine ⟨build_prompt_token_bound, ?_⟩
  intro t b hb
  constructor
  · intro hle
    unfold truncate_to_tokens
    rw [if_pos hle]
  · intro hgt
    unfold truncate_to_tokens
    rw [if_neg (by omega), if_pos (by omega)]

set_option maxRecDepth 100000 in
/-- C2 witness: the bound at a concrete call, and truncation of an 8-char
text to a 1-token budget keeping exactly 4 characters plus the marker. -/
theorem assemble_prompt_budget_spec_witness :
    estimate_tokens (build_prompt ("hi".data) none [] [] 1000) ≤ 1000
    ∧ truncate_to_tokens ("abcdefgh".data) 1
        = ("abcdefgh".data).take ((1 : ℤ) * 4).toNat ++ MARKER :=
  ⟨assemble_prompt_budget_spec.1 ("hi".data) none [] [] 1000 (by decide),
   (assemble_prompt_budget_spec.2 ("abcdefgh".data) 1 (by norm_num)).2 (by decide)⟩

set_option maxRecDepth 100000 in
/-- C2 counterexample: at `max_tokens = 0` (an allowed value under the
claim's universal quantifier) the assembled prompt still contains the whole
system instruction and query, so its token count under the claim's
`ceil(len/4)` measure exceeds `max_tokens` by far more than the length of
one truncation marker. -/
theorem assemble_prompt_budget_counterexample :
    ¬ (ceilTokens (build_prompt ("hi".data) none [] [] 0) ≤ 0 + 3) := by decide

/-- C7: the assembler follows the spec's budgeting order exactly (reserve
system, query and 50 tokens; cap the profile at a quarter of the remainder;
cap the memory context at half of what is then left; give the session the
rest; join the non-empty sections in fixed order with blank lines), and the
output always carries the full system instruction at its head and the full
query section at its tail, neither ever truncated. -/
theorem build_prompt_structure_spec (q : Str) (profile : Option UserProfile)
    (mems : List RankedCandidate) (sess : List SessionMessage) (mt : ℤ) :
    build_prompt q profile mems sess mt = assemblePromptSpec q profile mems sess mt
    ∧ ∃ mid : Str, build_prompt q profile mems sess mt
        = SYSTEM_INSTRUCTION ++ mid ++ ("\nUser: ".data ++ q ++ "\nAssistant:".data) := by
  constructor
  · rfl
  · have key : ∀ (O1 O2 O3 : List Str) (qp : Str),
        ∃ mid : Str, joinSep ("\n\n".data) ([SYSTEM_INSTRUCTION] ++ O1 ++ O2 ++ O3 ++ [qp])
          = SYSTEM_INSTRUCTION ++ mid ++ qp := by
      intro O1 O2 O3 qp
      have h2 : [SYSTEM_INSTRUCTION] ++ O1 ++ O2 ++ O3 ++ [qp]
          = SYSTEM_INSTRUCTION :: ((O1 ++ O2 ++ O3) ++ [qp]) := by simp
      rw [h2]
      exact joinSep_head_tail _ _ _ _
    exact key _ _ _ _

end PersonaMem
